import Mathlib

/-!
# Baidu Photo driver (`drivers/baidu_photo/driver.go`): block plan, digest pass,
# block uploader, placement, `Copy` and `Move`

A shallow embedding of `BaiduPhoto.Put`, `BaiduPhoto.Copy` and `BaiduPhoto.Move`.

* Sizes (`int64`, never negative for a stream) are natural numbers; the `int32`
  progress counter and the `int` sequence numbers are integers, wrapped to their
  width where the program can overflow.
* `math.Ceil(float64(streamSize) / float64(DEFAULT))` is computed on the exact
  values the float64 operations produce: the conversion rounds to 53 significant
  bits (ties to even), the division by a power of two and `math.Ceil` are exact.
* The remote service, the temporary file helper and the hash function are
  parameters; every remote call is recorded in a trace.
-/

namespace BaiduPhoto

/-! ## Block plan (driver.go, lines 230-239) -/

/-- The constant `DEFAULT = 1 << 22` of `Put`: the fixed block size. -/
def DEFAULT : Nat := 1 <<< 22

/-- The constant `SliceSize = 1 << 18` of `Put`: the prefix length of slice-md5. -/
def SliceSize : Nat := 1 <<< 18

/-- Round `n` to a multiple of `2 ^ e`, to nearest, ties to the even quotient. -/
def roundHalfEven (n e : Nat) : Nat :=
  let q := n / 2 ^ e
  let r := n % 2 ^ e
  if 2 ^ e < 2 * r ∨ (2 * r = 2 ^ e ∧ q % 2 = 1) then (q + 1) * 2 ^ e else q * 2 ^ e

/-- The number of binary digits of `n` beyond the 53 a float64 significand holds:
the halvings that bring `n` below `2^53`, at most `fuel` of them. -/
def excessBits : Nat → Nat → Nat
  | 0, _ => 0
  | fuel + 1, n => if n < 2 ^ 53 then 0 else excessBits fuel (n / 2) + 1

/-- The conversion `float64(n)` of a non-negative integer: `n` keeps its 53 leading
bits, the bits below them are rounded off (IEEE 754, round to nearest even). The
result is the integer value of the float. A 64-bit integer has at most 11 bits too
many, so 64 halvings are enough. -/
def float64 (n : Nat) : Nat := roundHalfEven n (excessBits 64 n)

/-- The value `int(math.Ceil(x / y))` for floats holding the integers `x` and `y`,
`y` a power of two: the float quotient is exact, and so is its ceiling. -/
def ceilQuot (x y : Nat) : Nat := (x + y - 1) / y

/-- The variable `count` of `Put`:
`int(math.Ceil(float64(streamSize) / float64(DEFAULT)))`; the constant conversion
`float64(DEFAULT)` is exact. -/
def count (streamSize : Nat) : Nat := ceilQuot (float64 streamSize) DEFAULT

/-- The variable `lastBlockSize` of `Put`: `streamSize % DEFAULT`, replaced by
`DEFAULT` when it is zero. -/
def lastBlockSize (streamSize : Nat) : Nat :=
  if streamSize % DEFAULT = 0 then DEFAULT else streamSize % DEFAULT

/-- The value of `byteSize` in iteration `i` (from 1) of the loop
`for i := 1; i <= count; i++`: `DEFAULT`, set to `lastBlockSize` when `i == count`. -/
def byteSizeAt (streamSize i : Nat) : Nat :=
  if i = count streamSize then lastBlockSize streamSize else DEFAULT

/-- The block lengths of the plan, in sequence order: `byteSize` over the iterations
`i = 1, ..., count`. -/
def blockLengths (streamSize : Nat) : List Nat :=
  (List.range' 1 (count streamSize)).map (byteSizeAt streamSize)

/-- The block count in the words of the specification: the ceiling of the rational
quotient `total size / fixed block size`. -/
def specBlockCount (streamSize blockSize : Nat) : Nat :=
  ⌈(streamSize : ℚ) / (blockSize : ℚ)⌉₊

/-! ## Data model -/

/-- A byte of the stream. -/
abbrev Byte := UInt8

/-- The error values `Put`, `Copy` and `Move` return or pass on. -/
inductive Err where
  /-- The error `fmt.Errorf("file size cannot be zero")`. -/
  | fileSizeZero
  /-- The fixed error `errs.NotSupport`. -/
  | notSupport
  /-- The error `context.Canceled`. -/
  | canceled
  /-- The error `context.DeadlineExceeded`. -/
  | deadlineExceeded
  /-- A transport or protocol error of a remote call. -/
  | transport (code : Nat)
  /-- A local input/output error. -/
  | diskFailure (code : Nat)
  deriving DecidableEq, Repr

/-- The type `model.Object` of `internal/model/object.go` (`Modified` as a
timestamp). -/
structure Object where
  ID : String
  Path : String
  Name : String
  Size : Int
  Modified : Nat
  IsFolder : Bool
  deriving DecidableEq, Repr

/-- The driver type `File` (a file of the root namespace), by its identifier. -/
structure File where
  fsid : Nat
  deriving DecidableEq, Repr

/-- The driver type `Album`, by its identifier. -/
structure Album where
  albumID : Nat
  deriving DecidableEq, Repr

/-- The driver type `AlbumFile`: a file as a member of an album. -/
structure AlbumFile where
  fsid : Nat
  albumID : Nat
  deriving DecidableEq, Repr

/-- The dynamic type of a `model.Obj` value, as the type switches of the driver
see it: `*File`, `*AlbumFile`, `*Album`, `*Root`, or any other implementation. -/
inductive Obj where
  | file (f : File)
  | albumFile (f : AlbumFile)
  | album (a : Album)
  | root
  | object (o : Object)
  deriving DecidableEq, Repr

/-- A non-nil `model.Obj` interface value as a method returns it: an object, or the
pointer a failed helper returned next to its error. In `return d.CopyAlbumFile(...)`
and `return d.AddAlbumFile(...)` the helper's `*File` or `*AlbumFile` is converted to
`model.Obj`, and the conversion of a pointer, nil or not, is never the nil
interface. -/
inductive ObjValue where
  /-- An object. -/
  | obj (o : Obj)
  /-- The `*File` of a failed helper, as `model.Obj`. -/
  | failedFile
  /-- The `*AlbumFile` of a failed helper, as `model.Obj`. -/
  | failedAlbumFile
  deriving DecidableEq, Repr

/-- A returned pair `(model.Obj, error)`; `none` is `nil`. -/
structure Ret where
  obj : Option ObjValue
  err : Option Err
  deriving DecidableEq, Repr

/-- The pair `(obj, nil)`. -/
def Ret.ok (o : Obj) : Ret := ⟨some (ObjValue.obj o), none⟩

/-- The pair `(nil, err)`, with the literal `nil`. -/
def Ret.fail (e : Err) : Ret := ⟨none, some e⟩

/-- The pair a statement `return f(...)` yields for a helper returning
`(*File, error)`: on an error the object is the helper's pointer, not the literal
`nil`. -/
def Ret.ofFile : Except Err File → Ret
  | .ok f => Ret.ok (Obj.file f)
  | .error e => ⟨some ObjValue.failedFile, some e⟩

/-- The pair a statement `return f(...)` yields for a helper returning
`(*AlbumFile, error)`: on an error the object is the helper's pointer, not the literal
`nil`. -/
def Ret.ofAlbumFile : Except Err AlbumFile → Ret
  | .ok f => Ret.ok (Obj.albumFile f)
  | .error e => ⟨some ObjValue.failedAlbumFile, some e⟩

/-- The form fields of the precreate and create requests that depend on the
stream (`path`, `size`, `slice-md5`, `content-md5`, `block_list`) and `uploadid`,
set before create. `D` is the type of a hex digest. -/
structure Params (D : Type) where
  path : String
  size : Nat
  sliceMd5 : D
  contentMd5 : D
  blockList : List D
  uploadid : Option String
  deriving DecidableEq, Repr

/-- The field `Data` of the precreate/create response. -/
structure UploadFile where
  fsid : Nat
  deriving DecidableEq, Repr

/-- The response type `PrecreateResp`: outcome code, session identifier, known block
list and object descriptor. -/
structure PrecreateResp where
  ReturnType : Int
  UploadID : String
  BlockList : List Int
  Data : UploadFile
  deriving DecidableEq, Repr

/-- The source stream handed to `Put`: name and declared size. -/
structure Stream where
  name : String
  size : Nat
  deriving DecidableEq, Repr

/-- An effect of the driver on the outside: the remote calls, the creation of the
temporary file (which reads the stream) and the progress callback. -/
inductive Call (D : Type) where
  | createTempFile (s : Stream)
  | precreate (p : Params D)
  | upload (path : String) (partseq : Int) (uploadid : String) (offset : Int)
      (byteSize : Nat)
  | progress (percentage : Int)
  | create (p : Params D)
  | addAlbumFile (a : Album) (f : File)
  | copyAlbumFile (f : AlbumFile)
  | deleteAlbumFile (f : AlbumFile)
  deriving DecidableEq, Repr

/-- Everything outside the driver code: the hash, the temporary file helper, the
caller's context as the digest loop observes it, and the remote service, each remote
call answered by a function of its request. -/
structure Env (D : Type) where
  /-- The value `hex.EncodeToString(h.Sum(nil))` of an MD5 hash `h` fed the bytes. -/
  hexMD5 : List Byte → D
  /-- The helper `utils.CreateTempFile(stream.GetReadCloser(), stream.GetSize())`:
  the content of the temporary file, or an error. -/
  CreateTempFile : Stream → Except Err (List Byte)
  /-- The value `ctx.Err()` when iteration `i` of the digest loop starts. -/
  ctxErrAt : Nat → Option Err
  /-- The call `d.Post(FILE_API_URL_V1+"/precreate", ...)`. -/
  precreate : Params D → Except Err PrecreateResp
  /-- The call `d.Post(FILE_API_URL_V1+"/create", ...)`, decoded into the response
  variable of precreate. -/
  create : Params D → PrecreateResp → Except Err PrecreateResp
  /-- The method `toFile` of the response data. -/
  toFile : UploadFile → File
  /-- The helper `d.AddAlbumFile`. -/
  AddAlbumFile : Album → File → Except Err AlbumFile
  /-- The helper `d.CopyAlbumFile`. -/
  CopyAlbumFile : AlbumFile → Except Err File
  /-- The helper `d.DeleteAlbumFile`. -/
  DeleteAlbumFile : AlbumFile → Option Err

/-! ## Digest pass (driver.go, lines 241-264) -/

/-- Modelled from the spec: the writer `utils.LimitWriter(w, limit)` of `pkg/utils`,
which is not among the sources. The specification feeds the truncated-content
accumulator "only for bytes within the first N total bytes across the whole file":
the writer forwards bytes to `w` until `limit` bytes have passed in total, drops the
rest, and reports every write as complete. `written` is what `w` has received. -/
structure LimitWriter where
  limit : Nat
  written : List Byte
  deriving DecidableEq, Repr

/-- One `Write(p)` on a `LimitWriter`. -/
def LimitWriter.Write (l : LimitWriter) (p : List Byte) : LimitWriter :=
  { limit := l.limit - p.length, written := l.written ++ p.take l.limit }

/-- The variables of the digest loop. A hash is the list of bytes written to it
since it was created or reset. -/
structure DigestState (D : Type) where
  /-- The read offset of `tempFile`. -/
  offset : Nat
  byteSize : Nat
  fileMd5H : List Byte
  sliceMd5H : List Byte
  slicemd5H2Write : LimitWriter
  sliceMD5List : List D

/-- The state before the loop: `byteSize := int64(DEFAULT)`, three fresh hashes,
`slicemd5H2Write := utils.LimitWriter(sliceMd5H2, SliceSize)`, the file at offset 0. -/
def DigestState.init (D : Type) : DigestState D :=
  { offset := 0, byteSize := DEFAULT, fileMd5H := [], sliceMd5H := [],
    slicemd5H2Write := { limit := SliceSize, written := [] }, sliceMD5List := [] }

/-- The body of the digest loop after the cancellation check, for iteration `i`:
`byteSize` becomes `lastBlockSize` when `i == count`; `io.CopyN` reads up to
`byteSize` bytes at the file offset (fewer at the end of the file, `io.EOF` being
ignored) and writes them to the three writers; the block digest is appended and
`sliceMd5H` reset. -/
def digestIter {D : Type} (hexMD5 : List Byte → D) (tempFile : List Byte)
    (cnt last i : Nat) (s : DigestState D) : DigestState D :=
  let byteSize := if i = cnt then last else s.byteSize
  let p := (tempFile.drop s.offset).take byteSize
  { offset := s.offset + p.length
    byteSize := byteSize
    fileMd5H := s.fileMd5H ++ p
    sliceMd5H := []
    slicemd5H2Write := s.slicemd5H2Write.Write p
    sliceMD5List := s.sliceMD5List ++ [hexMD5 (s.sliceMd5H ++ p)] }

/-- The digest loop over the remaining iterations: each one first checks
`utils.IsCanceled(ctx)` and returns `ctx.Err()` when the context is done. -/
def digestLoop {D : Type} (hexMD5 : List Byte → D) (ctxErrAt : Nat → Option Err)
    (tempFile : List Byte) (cnt last : Nat) :
    List Nat → DigestState D → Except Err (DigestState D)
  | [], s => .ok s
  | i :: rest, s =>
    match ctxErrAt i with
    | some e => .error e
    | none => digestLoop hexMD5 ctxErrAt tempFile cnt last rest
        (digestIter hexMD5 tempFile cnt last i s)

/-- The digest set: `content-md5`, `slice-md5` and the block digest list. -/
structure Digests (D : Type) where
  contentMd5 : D
  sliceMd5 : D
  sliceMD5List : List D
  deriving DecidableEq, Repr

/-- The digest set after the loop: `contentMd5` and `sliceMd5` are the hex digests of
the two whole-pass hashes, next to the block digest list. -/
def Digests.ofState {D : Type} (hexMD5 : List Byte → D) (s : DigestState D) : Digests D :=
  { contentMd5 := hexMD5 s.fileMd5H
    sliceMd5 := hexMD5 s.slicemd5H2Write.written
    sliceMD5List := s.sliceMD5List }

/-- The digest set of a finished loop; an error of the loop is kept. -/
def Digests.ofLoop {D : Type} (hexMD5 : List Byte → D) :
    Except Err (DigestState D) → Except Err (Digests D)
  | .error e => .error e
  | .ok s => .ok (Digests.ofState hexMD5 s)

/-- Step 1 of `Put`: `for i := 1; i <= count; i++ { ... }` from the initial state,
then the digest set. -/
def digestPass {D : Type} (hexMD5 : List Byte → D) (ctxErrAt : Nat → Option Err)
    (tempFile : List Byte) (streamSize : Nat) : Except Err (Digests D) :=
  Digests.ofLoop hexMD5
    (digestLoop hexMD5 ctxErrAt tempFile (count streamSize) (lastBlockSize streamSize)
      (List.range' 1 (count streamSize)) (DigestState.init D))

/-- The byte range of block `i` (from 0) of the plan in the content: offset
`i * DEFAULT`, length the plan's length for the block. -/
def planBlock (content : List Byte) (i : Nat) : List Byte :=
  (content.drop (i * DEFAULT)).take (byteSizeAt content.length (i + 1))

/-! ## Block uploader (driver.go, lines 289-338) -/

/-- The value an `int32` holds after an arithmetic result `x` (two's complement). -/
def wrapInt32 (x : Int) : Int := (x + 2147483648) % 4294967296 - 2147483648

/-- The value an `int64` holds after an arithmetic result `x` (two's complement). -/
def wrapInt64 (x : Int) : Int :=
  (x + 9223372036854775808) % 18446744073709551616 - 9223372036854775808

/-- The variable `threadNum := 3`: the capacity of the channel `thread`. -/
def threadNum : Nat := 3

/-- What the uploader reads and never changes: `count`, `lastBlockSize`,
`params["path"]` and the precreate response (`BlockList`, `UploadID`). -/
structure UploadCfg where
  count : Nat
  lastBlockSize : Nat
  path : String
  resp : PrecreateResp
  deriving DecidableEq, Repr

/-- A started goroutine: the arguments `(partseq, offset, byteSize)` of the call
`go func(partseq int, offset, byteSize int64) {...}(partseq, int64(partseq)*DEFAULT,
byteSize)`, evaluated when it is started. -/
structure Job where
  partseq : Int
  offset : Int
  byteSize : Nat
  deriving DecidableEq, Repr

/-- Where the coordinating goroutine stands in case 1 of the switch. -/
inductive Pc where
  /-- At the head of `for _, partseq := range precreateResp.BlockList`. -/
  | loop
  /-- At `thread <- struct{}{}` in the loop body, for this `partseq`. -/
  | acquire (partseq : Int)
  /-- In `for i := 0; i < threadNum; i++ { thread <- struct{}{} }`, `i` sends done. -/
  | wait (i : Nat)
  /-- `Put` has returned from inside case 1. -/
  | returned (r : Ret)
  /-- Case 1 is left through `fallthrough`. -/
  | uploaded
  deriving DecidableEq, Repr

/-- The state of the upload phase. -/
structure UpState (D : Type) where
  pc : Pc
  /-- The entries of `BlockList` the range loop has not reached yet. -/
  todo : List Int
  byteSize : Nat
  /-- The number of values in the channel `thread`. -/
  thread : Nat
  /-- The goroutines started and not yet finished. -/
  running : List Job
  /-- The counter `progress` (`int32`). -/
  progress : Int
  /-- The cause `context.Cause(upCtx)`; `none` while `upCtx` is not cancelled. -/
  upCtx : Option Err
  /-- The value `ctx.Err()` of the caller's context. -/
  ctx : Option Err
  /-- The uploads started and the progress callbacks made, in order. -/
  trace : List (Call D)

/-- The state on entry of case 1: `upCtx` derived from `ctx`, an empty channel,
`progress := int32(0)`, `byteSize = DEFAULT`. -/
def UpState.init (D : Type) (cfg : UploadCfg) : UpState D :=
  { pc := .loop, todo := cfg.resp.BlockList, byteSize := DEFAULT, thread := 0,
    running := [], progress := 0, upCtx := none, ctx := none, trace := [] }

/-- A cancellation keeps the first cause: `cancel(err)` on a cancelled context does
nothing. -/
def firstCause (old : Option Err) (e : Err) : Option Err :=
  match old with
  | none => some e
  | some c => some c

/-- What can happen next: the coordinating goroutine takes its next step; the
transfer of the running goroutine `j` returns from `d.Post` (with `err`, `none` for
success) and the goroutine runs to its end; or the caller cancels `ctx`, which then has
the error `err` and the cause `cause`. -/
inductive Ev where
  | main
  | finish (j : Nat) (err : Option Err)
  | cancel (err cause : Err)
  deriving DecidableEq, Repr

/-- One step of the coordinating goroutine. At the loop head: the next `partseq`, and
`if utils.IsCanceled(upCtx) { return nil, ctx.Err() }`; with the list exhausted, on to
the wait loop. At `thread <- struct{}{}`: blocked while the channel is full; then
`byteSize = lastBlockSize` when `partseq+1 == count`, and the goroutine starts. In the
wait loop: one send per step, blocked while the channel is full; after `threadNum`
sends, `if utils.IsCanceled(upCtx) { return nil, context.Cause(upCtx) }`, else
`fallthrough`. -/
def mainStep {D : Type} (cfg : UploadCfg) (s : UpState D) : UpState D :=
  match s.pc with
  | .loop =>
    match s.todo with
    | [] => { s with pc := .wait 0 }
    | partseq :: rest =>
      if s.upCtx.isSome then { s with pc := .returned ⟨none, s.ctx⟩ }
      else { s with pc := .acquire partseq, todo := rest }
  | .acquire partseq =>
    if s.thread < threadNum then
      let byteSize := if partseq + 1 = (cfg.count : Int) then cfg.lastBlockSize else s.byteSize
      let offset := wrapInt64 (partseq * (DEFAULT : Int))
      { s with
        pc := .loop
        thread := s.thread + 1
        byteSize := byteSize
        running := s.running ++ [{ partseq := partseq, offset := offset, byteSize := byteSize }]
        trace := s.trace ++ [Call.upload cfg.path partseq cfg.resp.UploadID offset byteSize] }
    else s
  | .wait i =>
    if i < threadNum then
      if s.thread < threadNum then { s with pc := .wait (i + 1), thread := s.thread + 1 }
      else s
    else if s.upCtx.isSome then { s with pc := .returned ⟨none, s.upCtx⟩ }
    else { s with pc := .uploaded }
  | .returned _ => s
  | .uploaded => s

/-- The value `progress * 100 / len(precreateResp.BlockList)` (Go's truncated
division) passed to `up`. -/
def percentage (progress : Int) (len : Nat) : Int := Int.tdiv (progress * 100) (len : Int)

/-- The end of goroutine `j`: on an error `cancel(err)`; on success the counter is
incremented (`atomic.AddInt32(&progress, 1)`) and, when the block list is not empty,
`up` is called with the percentage; in both cases the deferred `<-thread` frees a
slot. -/
def finishStep {D : Type} (cfg : UploadCfg) (j : Nat) (err : Option Err) (s : UpState D) :
    UpState D :=
  if j < s.running.length then
    match err with
    | some e =>
      { s with running := s.running.eraseIdx j, thread := s.thread - 1,
               upCtx := firstCause s.upCtx e }
    | none =>
      { s with
        running := s.running.eraseIdx j
        thread := s.thread - 1
        progress := wrapInt32 (s.progress + 1)
        trace := if 0 < cfg.resp.BlockList.length then
            s.trace ++ [Call.progress
              (percentage (wrapInt32 (s.progress + 1)) cfg.resp.BlockList.length)]
          else s.trace }
  else s

/-- The caller cancels `ctx`: `ctx.Err()` becomes `err`, and `upCtx`, derived from
`ctx`, is cancelled with `cause` unless it was cancelled before. -/
def cancelStep {D : Type} (err cause : Err) (s : UpState D) : UpState D :=
  { s with ctx := firstCause s.ctx err, upCtx := firstCause s.upCtx cause }

/-- One step of the upload phase; an event that cannot happen leaves the state as it
is. -/
def step {D : Type} (cfg : UploadCfg) (s : UpState D) : Ev → UpState D
  | .main => mainStep cfg s
  | .finish j err => finishStep cfg j err s
  | .cancel err cause => cancelStep err cause s

/-- The state after a schedule of events. -/
def run {D : Type} (cfg : UploadCfg) (s : UpState D) (sched : List Ev) : UpState D :=
  sched.foldl (step cfg) s

/-- A call is a block transfer. -/
def Call.isUpload {D : Type} : Call D → Bool
  | .upload _ _ _ _ _ => true
  | _ => false

/-- A call is the finalize (create) call. -/
def Call.isCreate {D : Type} : Call D → Bool
  | .create _ => true
  | _ => false

/-- The jobs of the block transfers in a trace, in order. -/
def uploadsOf {D : Type} : List (Call D) → List Job
  | [] => []
  | .upload _ partseq _ offset byteSize :: rest =>
    { partseq := partseq, offset := offset, byteSize := byteSize } :: uploadsOf rest
  | _ :: rest => uploadsOf rest

/-- The map `params` built in step 2: `path` is `"/" + stream.GetName()`, `size` the
stream size, with the three digests. -/
def mkParams {D : Type} (stream : Stream) (d : Digests D) : Params D :=
  { path := "/" ++ stream.name, size := stream.size, sliceMd5 := d.sliceMd5,
    contentMd5 := d.contentMd5, blockList := d.sliceMD5List, uploadid := none }

/-- What a run of `Put` yields: the returned pair and the calls made, or `none` when
the schedule ends before `Put` returns. -/
abbrev Outcome (D : Type) := Option (Ret × List (Call D))

/-- Put calls in front of the calls of the rest of the run. -/
def Outcome.after {D : Type} (pre : List (Call D)) : Outcome D → Outcome D
  | none => none
  | some (r, t) => some (r, pre ++ t)

/-- Case 3 of the switch (step 5): `rootfile := precreateResp.Data.toFile()`, added to
the album when `dstDir` is an `*Album`, returned as it is otherwise. -/
def place {D : Type} (env : Env D) (dstDir : Obj) (resp : PrecreateResp) :
    Ret × List (Call D) :=
  match dstDir with
  | .album a =>
    (Ret.ofAlbumFile (env.AddAlbumFile a (env.toFile resp.Data)),
      [Call.addAlbumFile a (env.toFile resp.Data)])
  | _ => (Ret.ok (Obj.file (env.toFile resp.Data)), [])

/-- The rest of case 2 once create has answered: its error, or on to case 3 with the
response of create. -/
def afterCreate {D : Type} (env : Env D) (dstDir : Obj) :
    Except Err PrecreateResp → Ret × List (Call D)
  | .error e => (Ret.fail e, [])
  | .ok resp => place env dstDir resp

/-- Case 2 of the switch (step 4): `params["uploadid"] = precreateResp.UploadID`, the
create call, then `fallthrough`. -/
def finalize {D : Type} (env : Env D) (dstDir : Obj) (params : Params D)
    (resp : PrecreateResp) : Ret × List (Call D) :=
  let r := afterCreate env dstDir
    (env.create { params with uploadid := some resp.UploadID } resp)
  (r.1, Call.create { params with uploadid := some resp.UploadID } :: r.2)

/-- The end of case 1: the pair returned inside it, or `fallthrough` to case 2; `none`
while the coordinating goroutine has not got that far. -/
def afterUpload {D : Type} (env : Env D) (dstDir : Obj) (params : Params D)
    (resp : PrecreateResp) (s : UpState D) : Outcome D :=
  match s.pc with
  | .returned r => some (r, s.trace)
  | .uploaded => Outcome.after s.trace (some (finalize env dstDir params resp))
  | _ => none

/-- The statement `switch precreateResp.ReturnType`. -/
def dispatch {D : Type} (env : Env D) (dstDir : Obj) (stream : Stream) (params : Params D)
    (sched : List Ev) (resp : PrecreateResp) : Outcome D :=
  if resp.ReturnType = 1 then
    afterUpload env dstDir params resp
      (run ⟨count stream.size, lastBlockSize stream.size, params.path, resp⟩
        (UpState.init D ⟨count stream.size, lastBlockSize stream.size, params.path, resp⟩)
        sched)
  else if resp.ReturnType = 2 then some (finalize env dstDir params resp)
  else if resp.ReturnType = 3 then some (place env dstDir resp)
  else some (Ret.fail Err.notSupport, [])

/-- The part of `Put` after the precreate call (step 2) has answered. -/
def PutNegotiated {D : Type} (env : Env D) (dstDir : Obj) (stream : Stream)
    (params : Params D) (sched : List Ev) : Except Err PrecreateResp → Outcome D
  | .error e => some (Ret.fail e, [Call.createTempFile stream, Call.precreate params])
  | .ok resp =>
    Outcome.after [Call.createTempFile stream, Call.precreate params]
      (dispatch env dstDir stream params sched resp)

/-- The part of `Put` after the digest pass (step 1). -/
def PutDigested {D : Type} (env : Env D) (dstDir : Obj) (stream : Stream)
    (sched : List Ev) : Except Err (Digests D) → Outcome D
  | .error e => some (Ret.fail e, [Call.createTempFile stream])
  | .ok d =>
    PutNegotiated env dstDir stream (mkParams stream d) sched
      (env.precreate (mkParams stream d))

/-- The part of `Put` after `utils.CreateTempFile`. -/
def PutWithTemp {D : Type} (env : Env D) (dstDir : Obj) (stream : Stream)
    (sched : List Ev) : Except Err (List Byte) → Outcome D
  | .error e => some (Ret.fail e, [Call.createTempFile stream])
  | .ok tempFile =>
    PutDigested env dstDir stream sched
      (digestPass env.hexMD5 env.ctxErrAt tempFile stream.size)

/-- The method `Put`: a stream of size 0 is refused at once; otherwise the temporary
file, the digest pass, precreate and the switch on its outcome. `sched` is the schedule
of the upload phase. -/
def Put {D : Type} (env : Env D) (dstDir : Obj) (stream : Stream) (sched : List Ev) :
    Outcome D :=
  if stream.size = 0 then some (Ret.fail Err.fileSizeZero, [])
  else PutWithTemp env dstDir stream sched (env.CreateTempFile stream)

/-! ## `Copy` and `Move` (driver.go, lines 154-192) -/

/-- The case `albumfile -> root -> album` of `Copy` once `CopyAlbumFile` has answered:
`return nil, err` on its error, or `return d.AddAlbumFile(ctx, album, rootfile)`. -/
def copyToAlbum {D : Type} (env : Env D) (a : Album) (f : AlbumFile) :
    Except Err File → Ret × List (Call D)
  | .error e => (Ret.fail e, [Call.copyAlbumFile f])
  | .ok rootfile =>
    (Ret.ofAlbumFile (env.AddAlbumFile a rootfile),
      [Call.copyAlbumFile f, Call.addAlbumFile a rootfile])

/-- The method `Copy`: the type switch on `srcObj` and `dstDir`. -/
def Copy {D : Type} (env : Env D) (srcObj dstDir : Obj) : Ret × List (Call D) :=
  match srcObj, dstDir with
  | .file f, .album a => (Ret.ofAlbumFile (env.AddAlbumFile a f), [Call.addAlbumFile a f])
  | .albumFile f, .root => (Ret.ofFile (env.CopyAlbumFile f), [Call.copyAlbumFile f])
  | .albumFile f, .album a => copyToAlbum env a f (env.CopyAlbumFile f)
  | _, _ => (Ret.fail Err.notSupport, [])

/-- The rest of `Move` once `Copy` has returned `(newObj, err)`: `return nil, err` on
an error, or `_ = d.DeleteAlbumFile(ctx, file)` and `return newObj, nil`. -/
def moveAfterCopy {D : Type} (file : AlbumFile) : Ret × List (Call D) → Ret × List (Call D)
  | (⟨_, some err⟩, t) => (Ret.fail err, t)
  | (⟨newObj, none⟩, t) => (⟨newObj, none⟩, t ++ [Call.deleteAlbumFile file])

/-- The method `Move`: for an `*AlbumFile` and a destination `*Album` or `*Root`, `Copy`
followed by the removal of the original album file; `errs.NotSupport` otherwise. -/
def Move {D : Type} (env : Env D) (srcObj dstDir : Obj) : Ret × List (Call D) :=
  match srcObj, dstDir with
  | .albumFile file, .album _ => moveAfterCopy file (Copy env srcObj dstDir)
  | .albumFile file, .root => moveAfterCopy file (Copy env srcObj dstDir)
  | _, _ => (Ret.fail Err.notSupport, [])

/-! ## Sample data -/

/-- A sample environment: the identity as digest function, a temporary file holding
the single byte 7, a precreate answering with outcome `rt` and block list `blocks`,
and remote calls that succeed. -/
def sampleEnv (rt : Int) (blocks : List Int) : Env (List Byte) :=
  { hexMD5 := id
    CreateTempFile := fun _ => .ok [7]
    ctxErrAt := fun _ => none
    precreate := fun _ => .ok ⟨rt, "u", blocks, ⟨5⟩⟩
    create := fun _ r => .ok r
    toFile := fun u => ⟨u.fsid⟩
    AddAlbumFile := fun a f => .ok ⟨f.fsid, a.albumID⟩
    CopyAlbumFile := fun f => .ok ⟨f.fsid⟩
    DeleteAlbumFile := fun _ => none }

/-- The sample environment with a `CopyAlbumFile` that fails. -/
def failingCopyEnv : Env (List Byte) :=
  { sampleEnv 1 [] with CopyAlbumFile := fun _ => .error (Err.transport 1) }

/-- A sample stream of one byte. -/
def sampleStream : Stream := ⟨"a", 1⟩

/-- The digest set of the sample stream under the sample environment. -/
def sampleDigests : Digests (List Byte) :=
  { contentMd5 := [7], sliceMd5 := [7], sliceMD5List := [[7]] }

/-- The uploader setting of a 10 MiB stream whose precreate answers with the block
list `blocks`: 3 blocks, the last of 2 MiB. -/
def cfg10MiB (blocks : List Int) : UploadCfg :=
  ⟨3, 2097152, "/a", ⟨1, "u", blocks, ⟨5⟩⟩⟩

/-- A stream of 10 MiB. -/
def stream10MiB : Stream := ⟨"a", 10485760⟩

/-- An environment for the 10 MiB stream: the temporary file holds 10 MiB of zero
bytes, precreate answers outcome 1 with the block list `blocks`, the other calls are
those of the sample environment. -/
def env10MiB (blocks : List Int) : Env (List Byte) :=
  { sampleEnv 1 blocks with
    CreateTempFile := fun _ => .ok (List.replicate 10485760 0) }

theorem DEFAULT_eq : DEFAULT = 4194304 := by decide

theorem SliceSize_eq : SliceSize = 262144 := by decide

theorem roundHalfEven_zero (n : Nat) : roundHalfEven n 0 = n := by
  simp [roundHalfEven, Nat.mod_one]

theorem excessBits_of_lt (fuel : Nat) {n : Nat} (h : n < 2 ^ 53) :
    excessBits fuel n = 0 := by
  cases fuel with
  | zero => rfl
  | succ f => rw [excessBits, if_pos h]

theorem float64_eq_self {n : Nat} (h : n ≤ 2 ^ 53) : float64 n = n := by
  rcases Nat.lt_or_ge n (2 ^ 53) with hlt | hge
  · rw [float64, excessBits_of_lt 64 hlt, roundHalfEven_zero]
  · have hn : n = 2 ^ 53 := le_antisymm h hge
    subst hn
    decide

/-- The integer `2^53 + 1` is the first one that float64 does not hold: it converts
to `2^53`. -/
theorem float64_two_pow_53_succ : float64 (2 ^ 53 + 1) = 2 ^ 53 := by
  decide

/-- From `2^53` on, `excessBits` leaves at least 53 leading bits. -/
theorem excessBits_spec (fuel : Nat) : ∀ n, 2 ^ 53 ≤ n →
    2 ^ (52 + excessBits fuel n) ≤ n := by
  induction fuel with
  | zero =>
    intro n h1
    exact le_trans (by norm_num [excessBits]) h1
  | succ f ih =>
    intro n h1
    have hnl : ¬ n < 2 ^ 53 := Nat.not_lt.mpr h1
    rw [excessBits, if_neg hnl]
    rcases Nat.lt_or_ge (n / 2) (2 ^ 53) with hlt | hge
    · rw [excessBits_of_lt f hlt]
      exact h1
    · have hb := ih (n / 2) hge
      have h2n : 2 * (n / 2) ≤ n := Nat.mul_div_le n 2
      calc 2 ^ (52 + (excessBits f (n / 2) + 1))
          = 2 * 2 ^ (52 + excessBits f (n / 2)) := by rw [← Nat.add_assoc, pow_succ]; ring
        _ ≤ 2 * (n / 2) := Nat.mul_le_mul_left 2 hb
        _ ≤ n := h2n

theorem excessBits_pos (fuel : Nat) {n : Nat} (h : 2 ^ 53 ≤ n) :
    1 ≤ excessBits (fuel + 1) n := by
  rw [excessBits, if_neg (Nat.not_lt.mpr h)]
  omega

theorem ceilQuot_le_iff {a b : Nat} (hb : 0 < b) (n : Nat) :
    ceilQuot a b ≤ n ↔ a ≤ n * b := by
  unfold ceilQuot
  rw [← Nat.lt_succ_iff, Nat.div_lt_iff_lt_mul hb, Nat.succ_mul]
  omega

/-- The integer formula of `ceilQuot` is the ceiling of the rational quotient. -/
theorem specBlockCount_eq_ceilQuot (a : Nat) {b : Nat} (hb : 0 < b) :
    specBlockCount a b = ceilQuot a b := by
  unfold specBlockCount
  apply eq_of_forall_ge_iff
  intro n
  have hb' : (0 : ℚ) < (b : ℚ) := by exact_mod_cast hb
  rw [Nat.ceil_le, ceilQuot_le_iff hb, div_le_iff₀ hb']
  exact_mod_cast Iff.rfl

theorem count_eq_ceilQuot {S : Nat} (h : S ≤ 2 ^ 53) : count S = ceilQuot S DEFAULT := by
  rw [count, float64_eq_self h]

theorem byteSizeAt_of_lt {S i : Nat} (h : i < count S) : byteSizeAt S i = DEFAULT := by
  simp [byteSizeAt, Nat.ne_of_lt h]

theorem byteSizeAt_count (S : Nat) : byteSizeAt S (count S) = lastBlockSize S := by
  simp [byteSizeAt]

/-- The plan is `count - 1` full blocks followed by the last block. -/
theorem blockLengths_eq {S c : Nat} (hc : count S = c + 1) :
    blockLengths S = List.replicate c DEFAULT ++ [lastBlockSize S] := by
  unfold blockLengths
  rw [hc, List.range'_1_concat, List.map_append, List.map_singleton]
  congr 1
  · rw [List.eq_replicate_iff]
    refine ⟨by simp, ?_⟩
    intro b hb
    simp only [List.mem_map, List.mem_range'_1] at hb
    obtain ⟨i, hi, rfl⟩ := hb
    exact byteSizeAt_of_lt (by omega)
  · have : 1 + c = count S := by omega
    rw [this, byteSizeAt_count]

theorem blockLengths_length (S : Nat) : (blockLengths S).length = count S := by
  simp [blockLengths]

theorem blockLengths_sum {S c : Nat} (hc : count S = c + 1) :
    (blockLengths S).sum = c * DEFAULT + lastBlockSize S := by
  rw [blockLengths_eq hc]
  simp

theorem lastBlockSize_pos (S : Nat) : 0 < lastBlockSize S := by
  unfold lastBlockSize
  split
  · rw [DEFAULT_eq]; norm_num
  · omega

theorem lastBlockSize_le (S : Nat) : lastBlockSize S ≤ DEFAULT := by
  unfold lastBlockSize
  split
  · exact le_rfl
  · exact Nat.le_of_lt (Nat.mod_lt _ (by rw [DEFAULT_eq]; norm_num))

/-- With an exact `count`, the full blocks and the last block add up to the size. -/
theorem plan_exact {S : Nat} (hpos : 0 < S) :
    ∃ c, ceilQuot S DEFAULT = c + 1 ∧ c * DEFAULT + lastBlockSize S = S := by
  refine ⟨ceilQuot S DEFAULT - 1, ?_, ?_⟩
  · unfold ceilQuot
    rw [DEFAULT_eq]
    omega
  · unfold ceilQuot lastBlockSize
    rw [DEFAULT_eq]
    split <;> omega

/-- Claim C1, amended to the sizes float64 holds exactly: for every stream size
`0 < S ≤ 2^53` the block count of `Put` is the ceiling of `S / DEFAULT`, the plan has
that many blocks (`DEFAULT` for all but the last, `lastBlockSize` for the last), the
block lengths sum to `S`, and every block length is positive and at most `DEFAULT`. -/
theorem C1_block_plan_exact (S : Nat) (hpos : 0 < S) (hle : S ≤ 2 ^ 53) :
    count S = specBlockCount S DEFAULT ∧
    blockLengths S = List.replicate (count S - 1) DEFAULT ++ [lastBlockSize S] ∧
    (blockLengths S).length = count S ∧
    (blockLengths S).sum = S ∧
    ∀ l ∈ blockLengths S, 0 < l ∧ l ≤ DEFAULT := by
  have hB : 0 < DEFAULT := by rw [DEFAULT_eq]; norm_num
  obtain ⟨c, hc, hsum⟩ := plan_exact hpos
  have hcount : count S = c + 1 := by rw [count_eq_ceilQuot hle, hc]
  refine ⟨?_, ?_, blockLengths_length S, ?_, ?_⟩
  · rw [specBlockCount_eq_ceilQuot S hB, count_eq_ceilQuot hle]
  · rw [blockLengths_eq hcount, hcount]; rfl
  · rw [blockLengths_sum hcount, hsum]
  · intro l hl
    rw [blockLengths_eq hcount] at hl
    rcases List.mem_append.mp hl with h | h
    · rw [List.eq_of_mem_replicate h]; exact ⟨hB, le_rfl⟩
    · rw [List.mem_singleton.mp h]; exact ⟨lastBlockSize_pos S, lastBlockSize_le S⟩

/-- Witness of C1: a 10 MiB stream gives 3 blocks of 4 MiB, 4 MiB and 2 MiB. -/
theorem C1_block_plan_exact_witness :
    (0 < 10 * 2 ^ 20 ∧ 10 * 2 ^ 20 ≤ 2 ^ 53) ∧
    count (10 * 2 ^ 20) = 3 ∧
    blockLengths (10 * 2 ^ 20) = [4 * 2 ^ 20, 4 * 2 ^ 20, 2 * 2 ^ 20] ∧
    (blockLengths (10 * 2 ^ 20)).sum = 10 * 2 ^ 20 := by
  have h := C1_block_plan_exact (10 * 2 ^ 20) (by norm_num) (by norm_num)
  have hc : count (10 * 2 ^ 20) = 3 := by
    rw [count_eq_ceilQuot (by norm_num)]; decide
  refine ⟨⟨by norm_num, by norm_num⟩, hc, ?_, h.2.2.2.1⟩
  rw [h.2.1, hc]
  decide

/-- Counterexample to C1 as stated (every `S > 0`): at `S = 2^53 + 1` the conversion
`float64(streamSize)` rounds to `2^53`, `count` is `2^31` while the ceiling of
`S / DEFAULT` is `2^31 + 1`, and the block lengths sum to less than `S`. -/
theorem C1_counterexample :
    0 < 2 ^ 53 + 1 ∧
    count (2 ^ 53 + 1) = 2 ^ 31 ∧
    specBlockCount (2 ^ 53 + 1) DEFAULT = 2 ^ 31 + 1 ∧
    (blockLengths (2 ^ 53 + 1)).sum = 2 ^ 53 - 2 ^ 22 + 1 := by
  have hc : count (2 ^ 53 + 1) = 2 ^ 31 := by
    rw [count, float64_two_pow_53_succ]; decide
  refine ⟨by norm_num, hc, ?_, ?_⟩
  · rw [specBlockCount_eq_ceilQuot _ (by rw [DEFAULT_eq]; norm_num)]; decide
  · have hc' : count (2 ^ 53 + 1) = (2 ^ 31 - 1) + 1 := by rw [hc]; norm_num
    rw [blockLengths_sum hc']
    decide

/-! ### Digest pass -/

theorem float64_ge {n : Nat} (h : 2 ^ 53 ≤ n) : 2 ^ 53 ≤ float64 n := by
  have h1 := excessBits_pos 63 h
  have h2 := excessBits_spec 64 n h
  rw [float64]
  generalize excessBits 64 n = e at h1 h2
  have hq : 2 ^ 52 ≤ n / 2 ^ e := by
    rw [Nat.le_div_iff_mul_le (by positivity), ← pow_add]
    exact h2
  have hmul : 2 ^ 53 ≤ n / 2 ^ e * 2 ^ e := by
    calc 2 ^ 53 ≤ 2 ^ (52 + e) := Nat.pow_le_pow_right (by norm_num) (by omega)
      _ = 2 ^ 52 * 2 ^ e := pow_add 2 52 e
      _ ≤ n / 2 ^ e * 2 ^ e := Nat.mul_le_mul_right _ hq
  rw [roundHalfEven]
  split
  · calc 2 ^ 53 ≤ n / 2 ^ e * 2 ^ e := hmul
      _ ≤ (n / 2 ^ e + 1) * 2 ^ e := Nat.mul_le_mul_right _ (Nat.le_succ _)
  · exact hmul

/-- A non-empty stream has at least one block, and a single block only when the
stream fits in one block: this holds for every size, also beyond `2^53`. -/
theorem count_pos_and_single {S : Nat} (hpos : 0 < S) :
    0 < count S ∧ (count S = 1 → S ≤ DEFAULT) := by
  rcases Nat.lt_or_ge S (2 ^ 53) with hlt | hge
  · have h := count_eq_ceilQuot (Nat.le_of_lt hlt)
    rw [h]
    unfold ceilQuot
    rw [DEFAULT_eq]
    omega
  · have hF := float64_ge hge
    have : 2 ^ 31 ≤ count S := by
      rw [count]
      unfold ceilQuot
      rw [DEFAULT_eq]
      norm_num at hF ⊢
      omega
    norm_num at this
    omega

theorem digestLoop_ok {D : Type} (hexMD5 : List Byte → D) (ctxErrAt : Nat → Option Err)
    (hctx : ∀ i, ctxErrAt i = none) (tempFile : List Byte) (cnt last : Nat)
    (is : List Nat) (s : DigestState D) :
    digestLoop hexMD5 ctxErrAt tempFile cnt last is s =
      .ok (is.foldl (fun st i => digestIter hexMD5 tempFile cnt last i st) s) := by
  induction is generalizing s with
  | nil => rfl
  | cons i rest ih => simp [digestLoop, hctx, ih]

/-- Reading `b` bytes at offset `off` extends the prefix read so far. -/
theorem take_append_read (content : List Byte) (off b : Nat) :
    content.take off ++ (content.drop off).take b = content.take (off + b) := by
  rw [List.take_add]

/-- What one iteration keeps: the file hash holds the prefix read so far, the limit
writer has forwarded the first `SliceSize` bytes of it, and the offset grows by the
bytes read. -/
theorem digestIter_prefix {D : Type} (hexMD5 : List Byte → D) (content : List Byte)
    (cnt last i : Nat) (s : DigestState D)
    (h1 : s.offset ≤ content.length)
    (h2 : s.fileMd5H = content.take s.offset)
    (h3 : s.slicemd5H2Write.written = content.take (min s.offset SliceSize))
    (h4 : s.slicemd5H2Write.limit = SliceSize - s.offset) :
    let s' := digestIter hexMD5 content cnt last i s
    s'.offset ≤ content.length ∧
    s'.fileMd5H = content.take s'.offset ∧
    s'.slicemd5H2Write.written = content.take (min s'.offset SliceSize) ∧
    s'.slicemd5H2Write.limit = SliceSize - s'.offset ∧
    s'.offset = min (s.offset + (if i = cnt then last else s.byteSize)) content.length := by
  intro s'
  generalize hb : (if i = cnt then last else s.byteSize) = b
  have hoff : s'.offset = s.offset + min b (content.length - s.offset) := by
    simp [s', digestIter, hb, List.length_take, List.length_drop]
  have hfile : s'.fileMd5H = content.take s.offset ++ (content.drop s.offset).take b := by
    simp [s', digestIter, hb, h2]
  have hw : s'.slicemd5H2Write.written =
      content.take (min s.offset SliceSize) ++
        ((content.drop s.offset).take b).take (SliceSize - s.offset) := by
    simp [s', digestIter, hb, h3, h4, LimitWriter.Write]
  have hl : s'.slicemd5H2Write.limit = SliceSize - s.offset - min b (content.length - s.offset) := by
    simp [s', digestIter, hb, h4, LimitWriter.Write, List.length_take, List.length_drop]
  refine ⟨by omega, ?_, ?_, by omega, by omega⟩
  · rw [hfile, take_append_read, List.take_eq_take]
    omega
  · rw [hw, List.take_take]
    rcases Nat.lt_or_ge s.offset SliceSize with hlt | hge
    · rw [Nat.min_eq_left (Nat.le_of_lt hlt), take_append_read, List.take_eq_take]
      omega
    · have h0 : min (SliceSize - s.offset) b = 0 := by omega
      rw [h0, List.take_zero, List.append_nil, List.take_eq_take]
      omega

theorem digestFold_prefix {D : Type} (hexMD5 : List Byte → D) (content : List Byte)
    (cnt last : Nat) (is : List Nat) (s : DigestState D)
    (h1 : s.offset ≤ content.length)
    (h2 : s.fileMd5H = content.take s.offset)
    (h3 : s.slicemd5H2Write.written = content.take (min s.offset SliceSize))
    (h4 : s.slicemd5H2Write.limit = SliceSize - s.offset) :
    let s' := is.foldl (fun st i => digestIter hexMD5 content cnt last i st) s
    s'.offset ≤ content.length ∧
    s'.fileMd5H = content.take s'.offset ∧
    s'.slicemd5H2Write.written = content.take (min s'.offset SliceSize) ∧
    s.offset ≤ s'.offset := by
  induction is generalizing s with
  | nil => exact ⟨h1, h2, h3, le_rfl⟩
  | cons i rest ih =>
    obtain ⟨a1, a2, a3, a4, a5⟩ := digestIter_prefix hexMD5 content cnt last i s h1 h2 h3 h4
    obtain ⟨b1, b2, b3, b4⟩ := ih _ a1 a2 a3 a4
    refine ⟨b1, b2, b3, ?_⟩
    have : s.offset ≤ (digestIter hexMD5 content cnt last i s).offset := by
      rw [a5]; omega
    exact le_trans this b4

/-- Without cancellation the digest pass completes, with the digest set of the state
after the iterations `1, ..., count`. -/
theorem digestPass_ok {D : Type} (hexMD5 : List Byte → D)
    (ctxErrAt : Nat → Option Err) (hctx : ∀ i, ctxErrAt i = none)
    (content : List Byte) (S : Nat) :
    digestPass hexMD5 ctxErrAt content S =
      .ok (Digests.ofState hexMD5 ((List.range' 1 (count S)).foldl
        (fun st i => digestIter hexMD5 content (count S) (lastBlockSize S) i st)
        (DigestState.init D))) := by
  unfold digestPass
  rw [digestLoop_ok hexMD5 ctxErrAt hctx]
  rfl

theorem Digests.ofState_sliceMd5 {D : Type} (hexMD5 : List Byte → D) (s : DigestState D) :
    (Digests.ofState hexMD5 s).sliceMd5 = hexMD5 s.slicemd5H2Write.written := rfl

theorem Digests.ofState_sliceMD5List {D : Type} (hexMD5 : List Byte → D)
    (s : DigestState D) : (Digests.ofState hexMD5 s).sliceMD5List = s.sliceMD5List := rfl

/-- The slice-md5 of a completed digest pass is the digest of the first `SliceSize`
bytes of the content (all of it when it is shorter). -/
theorem digestPass_sliceMd5 {D : Type} (hexMD5 : List Byte → D)
    (ctxErrAt : Nat → Option Err) (hctx : ∀ i, ctxErrAt i = none)
    (content : List Byte) (hpos : 0 < content.length) :
    ∃ d, digestPass hexMD5 ctxErrAt content content.length = .ok d ∧
      d.sliceMd5 = hexMD5 (content.take (min SliceSize content.length)) := by
  obtain ⟨hc1, hc2⟩ := count_pos_and_single hpos
  obtain ⟨c, hc⟩ : ∃ c, count content.length = c + 1 := ⟨count content.length - 1, by omega⟩
  refine ⟨_, digestPass_ok hexMD5 ctxErrAt hctx content content.length, ?_⟩
  rw [Digests.ofState_sliceMd5, hc, List.range'_succ, List.foldl_cons]
  obtain ⟨a1, a2, a3, a4, a5⟩ := digestIter_prefix hexMD5 content (c + 1)
    (lastBlockSize content.length) 1 (DigestState.init D) (Nat.zero_le _) rfl rfl rfl
  have hfirst : min SliceSize content.length ≤
      (digestIter hexMD5 content (c + 1) (lastBlockSize content.length) 1
        (DigestState.init D)).offset := by
    rw [a5]
    have hinit : (DigestState.init D).offset = 0 ∧ (DigestState.init D).byteSize = DEFAULT :=
      ⟨rfl, rfl⟩
    rw [hinit.1, hinit.2]
    by_cases h : 1 = c + 1
    · have hS : content.length ≤ DEFAULT := hc2 (by omega)
      rw [if_pos h]
      unfold lastBlockSize
      rw [DEFAULT_eq, SliceSize_eq] at *
      split <;> omega
    · rw [if_neg h, DEFAULT_eq, SliceSize_eq]
      omega
  generalize digestIter hexMD5 content (c + 1) (lastBlockSize content.length) 1
    (DigestState.init D) = s1 at a1 a2 a3 a4 hfirst
  obtain ⟨b1, _, b3, b4⟩ := digestFold_prefix hexMD5 content (c + 1)
    (lastBlockSize content.length) (List.range' (1 + 1) c) s1 a1 a2 a3 a4
  generalize (List.range' (1 + 1) c).foldl
    (fun st i => digestIter hexMD5 content (c + 1) (lastBlockSize content.length) i st) s1 = s2
    at b1 b3 b4
  rw [b3]
  refine congrArg hexMD5 ?_
  rw [List.take_eq_take]
  omega

/-- Claim C7: the slice-md5 of the digest pass is the digest of the first
`min(SliceSize, S)` bytes of the content, so two contents that agree on their first
`SliceSize` bytes have the same slice-md5, whatever follows and wherever the block
boundaries fall. -/
theorem C7_slice_md5_first_bytes {D : Type} (hexMD5 : List Byte → D)
    (ctxErrAt : Nat → Option Err) (hctx : ∀ i, ctxErrAt i = none)
    (content content' : List Byte) (hpos : 0 < content.length)
    (hpos' : 0 < content'.length)
    (hagree : content.take SliceSize = content'.take SliceSize) :
    ∃ d d', digestPass hexMD5 ctxErrAt content content.length = .ok d ∧
      digestPass hexMD5 ctxErrAt content' content'.length = .ok d' ∧
      d.sliceMd5 = hexMD5 (content.take (min SliceSize content.length)) ∧
      d'.sliceMd5 = hexMD5 (content'.take (min SliceSize content'.length)) ∧
      d.sliceMd5 = d'.sliceMd5 := by
  obtain ⟨d, hd, hs⟩ := digestPass_sliceMd5 hexMD5 ctxErrAt hctx content hpos
  obtain ⟨d', hd', hs'⟩ := digestPass_sliceMd5 hexMD5 ctxErrAt hctx content' hpos'
  refine ⟨d, d', hd, hd', hs, hs', ?_⟩
  have e1 : content.take (min SliceSize content.length) = content.take SliceSize :=
    List.take_eq_take.mpr (by omega)
  have e2 : content'.take (min SliceSize content'.length) = content'.take SliceSize :=
    List.take_eq_take.mpr (by omega)
  rw [hs, hs', e1, e2, hagree]

/-- Witness of C7: two contents of `SliceSize + 1` bytes that differ in their last
byte only. -/
theorem C7_slice_md5_first_bytes_witness :
    ∃ d d', digestPass id (fun _ => none) (List.replicate 262144 (0 : Byte) ++ [1])
        (List.replicate 262144 (0 : Byte) ++ [1]).length = .ok d ∧
      digestPass id (fun _ => none) (List.replicate 262144 (0 : Byte) ++ [2])
        (List.replicate 262144 (0 : Byte) ++ [2]).length = .ok d' ∧
      d.sliceMd5 = id ((List.replicate 262144 (0 : Byte) ++ [1]).take
        (min SliceSize (List.replicate 262144 (0 : Byte) ++ [1]).length)) ∧
      d'.sliceMd5 = id ((List.replicate 262144 (0 : Byte) ++ [2]).take
        (min SliceSize (List.replicate 262144 (0 : Byte) ++ [2]).length)) ∧
      d.sliceMd5 = d'.sliceMd5 :=
  C7_slice_md5_first_bytes id (fun _ => none) (fun _ => rfl)
    (List.replicate 262144 (0 : Byte) ++ [1]) (List.replicate 262144 (0 : Byte) ++ [2])
    (by rw [List.length_append, List.length_replicate]; exact Nat.succ_pos _)
    (by rw [List.length_append, List.length_replicate]; exact Nat.succ_pos _)
    (by rw [SliceSize_eq, List.take_left' (List.length_replicate _ _),
      List.take_left' (List.length_replicate _ _)])

theorem digestFold_length {D : Type} (hexMD5 : List Byte → D) (content : List Byte)
    (cnt last : Nat) (is : List Nat) (s : DigestState D) :
    (is.foldl (fun st i => digestIter hexMD5 content cnt last i st) s).sliceMD5List.length =
      s.sliceMD5List.length + is.length := by
  induction is generalizing s with
  | nil => rfl
  | cons i rest ih =>
    rw [List.foldl_cons, ih]
    simp [digestIter]
    omega

/-- A completed digest pass has one block digest per iteration: `count` of them. -/
theorem digestPass_length {D : Type} (hexMD5 : List Byte → D)
    (ctxErrAt : Nat → Option Err) (hctx : ∀ i, ctxErrAt i = none)
    (content : List Byte) (S : Nat) :
    ∃ d, digestPass hexMD5 ctxErrAt content S = .ok d ∧ d.sliceMD5List.length = count S := by
  refine ⟨_, digestPass_ok hexMD5 ctxErrAt hctx content S, ?_⟩
  rw [Digests.ofState_sliceMD5List, digestFold_length, List.length_range']
  exact Nat.zero_add _

/-- The state after the first `m` full blocks of a plan of `c` full blocks and a last
block: the file offset, the unchanged `byteSize`, the reset block hash and the digests
of the blocks read. -/
theorem digestFold_full {D : Type} (hexMD5 : List Byte → D) (content : List Byte)
    (c last : Nat) (hS : content.length = c * DEFAULT + last) (m : Nat) (hm : m ≤ c) :
    let s := (List.range' 1 m).foldl
      (fun st i => digestIter hexMD5 content (c + 1) last i st) (DigestState.init D)
    s.offset = m * DEFAULT ∧ s.byteSize = DEFAULT ∧ s.sliceMd5H = [] ∧
    s.sliceMD5List =
      (List.range m).map (fun i => hexMD5 ((content.drop (i * DEFAULT)).take DEFAULT)) := by
  induction m with
  | zero => exact ⟨by simp [DigestState.init], rfl, rfl, rfl⟩
  | succ m ih =>
    obtain ⟨h1, h2, h3, h4⟩ := ih (by omega)
    rw [List.range'_1_concat, List.foldl_append]
    generalize (List.range' 1 m).foldl
      (fun st i => digestIter hexMD5 content (c + 1) last i st) (DigestState.init D) = s
      at h1 h2 h3 h4
    have hne : ¬ (1 + m = c + 1) := by omega
    have hlen : ((content.drop (m * DEFAULT)).take DEFAULT).length = DEFAULT := by
      rw [List.length_take, List.length_drop, hS]
      have : (m + 1) * DEFAULT ≤ c * DEFAULT := Nat.mul_le_mul_right _ hm
      rw [Nat.succ_mul] at this
      omega
    simp only [List.foldl_cons, List.foldl_nil, digestIter, if_neg hne, h1, h2, h3, h4,
      hlen, List.nil_append]
    refine ⟨by rw [Nat.succ_mul], trivial, trivial, ?_⟩
    rw [List.range_succ, List.map_append, List.map_singleton]

/-- The first `m` full-size ranges of a content concatenate to its first `m * DEFAULT`
bytes. -/
theorem flatten_full_blocks (content : List Byte) (m : Nat) :
    ((List.range m).map (fun i => (content.drop (i * DEFAULT)).take DEFAULT)).flatten =
      content.take (m * DEFAULT) := by
  induction m with
  | zero => simp
  | succ m ih =>
    rw [List.range_succ, List.map_append, List.flatten_append, ih, List.map_singleton,
      List.flatten_singleton, take_append_read, Nat.succ_mul]

theorem planBlock_of_lt {content : List Byte} {c i : Nat}
    (hc : count content.length = c + 1) (hi : i < c) :
    planBlock content i = (content.drop (i * DEFAULT)).take DEFAULT := by
  rw [planBlock, byteSizeAt_of_lt (by omega)]

theorem planBlock_last {content : List Byte} {c : Nat}
    (hc : count content.length = c + 1) :
    planBlock content c =
      (content.drop (c * DEFAULT)).take (lastBlockSize content.length) := by
  rw [planBlock, ← hc, byteSizeAt_count]

theorem map_planBlock {D : Type} (f : List Byte → D) {content : List Byte} {c : Nat}
    (hc : count content.length = c + 1) :
    (List.range (c + 1)).map (fun i => f (planBlock content i)) =
      (List.range c).map (fun i => f ((content.drop (i * DEFAULT)).take DEFAULT)) ++
        [f ((content.drop (c * DEFAULT)).take (lastBlockSize content.length))] := by
  rw [List.range_succ, List.map_append, List.map_singleton, planBlock_last hc]
  congr 1
  apply List.map_congr_left
  intro i hi
  rw [planBlock_of_lt hc (List.mem_range.mp hi)]

theorem planBlocks_eq {content : List Byte} {c : Nat}
    (hc : count content.length = c + 1) :
    (List.range (c + 1)).map (planBlock content) =
      (List.range c).map (fun i => (content.drop (i * DEFAULT)).take DEFAULT) ++
        [(content.drop (c * DEFAULT)).take (lastBlockSize content.length)] := by
  rw [List.range_succ, List.map_append, List.map_singleton, planBlock_last hc]
  congr 1
  apply List.map_congr_left
  intro i hi
  rw [planBlock_of_lt hc (List.mem_range.mp hi)]

theorem digestIter_sliceMD5List {D : Type} (hexMD5 : List Byte → D) (content : List Byte)
    (cnt last i : Nat) (s : DigestState D) :
    (digestIter hexMD5 content cnt last i s).sliceMD5List =
      s.sliceMD5List ++ [hexMD5 (s.sliceMd5H ++
        (content.drop s.offset).take (if i = cnt then last else s.byteSize))] := rfl

/-- Claim C6, amended to the sizes float64 holds exactly: for a content of length
`0 < S ≤ 2^53` the completed digest pass yields `ceil(S / DEFAULT)` block digests, the
`i`-th being the digest of block `i` of the plan (offset `i * DEFAULT`, length per the
plan), and the blocks in sequence order concatenate to the content. -/
theorem C6_block_digests {D : Type} (hexMD5 : List Byte → D)
    (ctxErrAt : Nat → Option Err) (hctx : ∀ i, ctxErrAt i = none)
    (content : List Byte) (hpos : 0 < content.length) (hle : content.length ≤ 2 ^ 53) :
    ∃ d, digestPass hexMD5 ctxErrAt content content.length = .ok d ∧
      d.sliceMD5List.length = specBlockCount content.length DEFAULT ∧
      d.sliceMD5List =
        (List.range (count content.length)).map (fun i => hexMD5 (planBlock content i)) ∧
      ((List.range (count content.length)).map (planBlock content)).flatten = content := by
  have hB : 0 < DEFAULT := by rw [DEFAULT_eq]; norm_num
  obtain ⟨c, hc, hsum⟩ := plan_exact hpos
  have hcount : count content.length = c + 1 := by rw [count_eq_ceilQuot hle, hc]
  obtain ⟨f1, f2, f3, f4⟩ := digestFold_full hexMD5 content c
    (lastBlockSize content.length) hsum.symm c le_rfl
  have hlist : ((List.range' 1 (c + 1)).foldl
      (fun st i => digestIter hexMD5 content (c + 1) (lastBlockSize content.length) i st)
      (DigestState.init D)).sliceMD5List =
      (List.range (c + 1)).map (fun i => hexMD5 (planBlock content i)) := by
    rw [map_planBlock hexMD5 hcount, List.range'_1_concat, List.foldl_append,
      List.foldl_cons, List.foldl_nil]
    generalize (List.range' 1 c).foldl
      (fun st i => digestIter hexMD5 content (c + 1) (lastBlockSize content.length) i st)
      (DigestState.init D) = s at f1 f3 f4
    rw [digestIter_sliceMD5List, f1, f3, f4, if_pos (Nat.add_comm 1 c), List.nil_append]
  refine ⟨_, digestPass_ok hexMD5 ctxErrAt hctx content content.length, ?_, ?_, ?_⟩
  · rw [Digests.ofState_sliceMD5List, hcount, hlist, List.length_map, List.length_range,
      specBlockCount_eq_ceilQuot _ hB, hc]
  · rw [Digests.ofState_sliceMD5List, hcount, hlist]
  · rw [hcount, planBlocks_eq hcount, List.flatten_append, flatten_full_blocks,
      List.flatten_singleton, take_append_read, hsum]
    exact List.take_of_length_le le_rfl

/-- Witness of C6: a content of three bytes is one block. -/
theorem C6_block_digests_witness :
    ∃ d, digestPass id (fun _ => none) ([7, 8, 9] : List Byte) [7, 8, 9].length = .ok d ∧
      d.sliceMD5List.length = specBlockCount [7, 8, 9].length DEFAULT ∧
      d.sliceMD5List =
        (List.range (count [7, 8, 9].length)).map
          (fun i => id (planBlock ([7, 8, 9] : List Byte) i)) ∧
      ((List.range (count [7, 8, 9].length)).map
        (planBlock ([7, 8, 9] : List Byte))).flatten = [7, 8, 9] :=
  C6_block_digests id (fun _ => none) (fun _ => rfl) [7, 8, 9] (by decide) (by decide)

/-- Counterexample to C6 as stated (every length `S > 0`): a content of `2^53 + 1`
bytes gets `2^31` block digests, one fewer than `ceil(S / DEFAULT) = 2^31 + 1`. -/
theorem C6_counterexample :
    0 < (List.replicate (2 ^ 53 + 1) (0 : Byte)).length ∧
    ∃ d, digestPass id (fun _ => none) (List.replicate (2 ^ 53 + 1) (0 : Byte))
        (List.replicate (2 ^ 53 + 1) (0 : Byte)).length = .ok d ∧
      d.sliceMD5List.length = 2 ^ 31 ∧
      specBlockCount (List.replicate (2 ^ 53 + 1) (0 : Byte)).length DEFAULT = 2 ^ 31 + 1 := by
  obtain ⟨d, hd, hl⟩ := digestPass_length id (fun _ => none) (fun _ => rfl)
    (List.replicate (2 ^ 53 + 1) (0 : Byte)) (List.replicate (2 ^ 53 + 1) (0 : Byte)).length
  rw [List.length_replicate] at hd hl ⊢
  refine ⟨by norm_num, d, hd, ?_, ?_⟩
  · rw [hl, count, float64_two_pow_53_succ]; decide
  · rw [specBlockCount_eq_ceilQuot _ (by rw [DEFAULT_eq]; norm_num)]; decide

/-! ### `Put`: validation and outcome 3 -/

/-- Claim C8: a stream of size 0 is rejected with the validation error and a nil
object, and nothing has been called: no remote call, no temporary file (whose
creation is what reads the stream). -/
theorem C8_zero_size_rejected {D : Type} (env : Env D) (dstDir : Obj) (stream : Stream)
    (sched : List Ev) (h : stream.size = 0) :
    Put env dstDir stream sched = some (⟨none, some Err.fileSizeZero⟩, []) := by
  rw [Put, if_pos h]
  rfl

/-- Witness of C8: the empty stream under the sample environment. -/
theorem C8_zero_size_rejected_witness :
    Put (sampleEnv 1 [0]) Obj.root ⟨"a", 0⟩ [Ev.main] =
      some (⟨none, some Err.fileSizeZero⟩, []) :=
  C8_zero_size_rejected (sampleEnv 1 [0]) Obj.root ⟨"a", 0⟩ [Ev.main] rfl

theorem dispatch_three {D : Type} (env : Env D) (dstDir : Obj) (stream : Stream)
    (params : Params D) (sched : List Ev) (resp : PrecreateResp)
    (h3 : resp.ReturnType = 3) :
    dispatch env dstDir stream params sched resp = some (place env dstDir resp) := by
  rw [dispatch, if_neg (by rw [h3]; decide), if_neg (by rw [h3]; decide), if_pos h3]

/-- A run of `Put` that gets as far as the answer of precreate continues with the
switch on the outcome. -/
theorem Put_negotiated {D : Type} (env : Env D) (dstDir : Obj) (stream : Stream)
    (sched : List Ev) (tempFile : List Byte) (d : Digests D) (resp : PrecreateResp)
    (hsize : stream.size ≠ 0)
    (htemp : env.CreateTempFile stream = .ok tempFile)
    (hdig : digestPass env.hexMD5 env.ctxErrAt tempFile stream.size = .ok d)
    (hneg : env.precreate (mkParams stream d) = .ok resp) :
    Put env dstDir stream sched =
      Outcome.after [Call.createTempFile stream, Call.precreate (mkParams stream d)]
        (dispatch env dstDir stream (mkParams stream d) sched resp) := by
  rw [Put, if_neg hsize, htemp, PutWithTemp, hdig, PutDigested, hneg, PutNegotiated]

theorem place_album {D : Type} (env : Env D) (a : Album) (resp : PrecreateResp) :
    place env (Obj.album a) resp =
      (Ret.ofAlbumFile (env.AddAlbumFile a (env.toFile resp.Data)),
        [Call.addAlbumFile a (env.toFile resp.Data)]) := rfl

theorem place_other {D : Type} (env : Env D) (dstDir : Obj) (resp : PrecreateResp)
    (h : ∀ a, dstDir ≠ Obj.album a) :
    place env dstDir resp = (Ret.ok (Obj.file (env.toFile resp.Data)), []) := by
  cases dstDir with
  | album a => exact absurd rfl (h a)
  | file f => rfl
  | albumFile f => rfl
  | root => rfl
  | object o => rfl

theorem place_calls {D : Type} (env : Env D) (dstDir : Obj) (resp : PrecreateResp) :
    ∀ c ∈ (place env dstDir resp).2, c.isUpload = false ∧ c.isCreate = false := by
  intro c hc
  cases dstDir with
  | album a =>
    rw [place_album, List.mem_singleton] at hc
    subst hc
    exact ⟨rfl, rfl⟩
  | file f => exact absurd hc (List.not_mem_nil c)
  | albumFile f => exact absurd hc (List.not_mem_nil c)
  | root => exact absurd hc (List.not_mem_nil c)
  | object o => exact absurd hc (List.not_mem_nil c)

/-- Claim C4: when precreate answers with outcome 3, `Put` returns what the placement
of the object descriptor of that answer returns (`AddAlbumFile` for an album, the
root file as it is otherwise); after precreate the only call is that of the
placement, and no call of the run is a block transfer or a create. -/
theorem C4_outcome_three_placement_only {D : Type} (env : Env D) (dstDir : Obj)
    (stream : Stream) (sched : List Ev) (tempFile : List Byte) (d : Digests D)
    (resp : PrecreateResp)
    (hsize : stream.size ≠ 0)
    (htemp : env.CreateTempFile stream = .ok tempFile)
    (hdig : digestPass env.hexMD5 env.ctxErrAt tempFile stream.size = .ok d)
    (hneg : env.precreate (mkParams stream d) = .ok resp)
    (h3 : resp.ReturnType = 3) :
    ∃ r t, Put env dstDir stream sched =
        some (r, [Call.createTempFile stream, Call.precreate (mkParams stream d)] ++ t) ∧
      (∀ c ∈ [Call.createTempFile stream, Call.precreate (mkParams stream d)] ++ t,
        c.isUpload = false ∧ c.isCreate = false) ∧
      (∀ a, dstDir = Obj.album a →
        r = Ret.ofAlbumFile (env.AddAlbumFile a (env.toFile resp.Data)) ∧
        t = [Call.addAlbumFile a (env.toFile resp.Data)]) ∧
      ((∀ a, dstDir ≠ Obj.album a) →
        r = Ret.ok (Obj.file (env.toFile resp.Data)) ∧ t = []) := by
  refine ⟨(place env dstDir resp).1, (place env dstDir resp).2, ?_, ?_, ?_, ?_⟩
  · rw [Put_negotiated env dstDir stream sched tempFile d resp hsize htemp hdig hneg,
      dispatch_three env dstDir stream _ sched resp h3]
    rfl
  · intro c hc
    rcases List.mem_append.mp hc with h | h
    · rcases List.mem_cons.mp h with h | h
      · subst h; exact ⟨rfl, rfl⟩
      · rw [List.mem_singleton] at h
        subst h; exact ⟨rfl, rfl⟩
    · exact place_calls env dstDir resp c h
  · intro a ha
    subst ha
    exact ⟨rfl, rfl⟩
  · intro h
    rw [place_other env dstDir resp h]
    exact ⟨rfl, rfl⟩

theorem sample_digestPass :
    digestPass (sampleEnv 3 []).hexMD5 (sampleEnv 3 []).ctxErrAt [7] sampleStream.size =
      .ok sampleDigests := rfl

/-- Witness of C4: the sample stream into an album, precreate answering outcome 3:
the calls are the temporary file, precreate and `AddAlbumFile`. -/
theorem C4_outcome_three_placement_only_witness :
    ∃ r t, Put (sampleEnv 3 []) (Obj.album ⟨9⟩) sampleStream [Ev.main] =
        some (r, [Call.createTempFile sampleStream,
          Call.precreate (mkParams sampleStream sampleDigests)] ++ t) ∧
      (∀ c ∈ [Call.createTempFile sampleStream,
          Call.precreate (mkParams sampleStream sampleDigests)] ++ t,
        c.isUpload = false ∧ c.isCreate = false) ∧
      (∀ a, Obj.album ⟨9⟩ = Obj.album a →
        r = Ret.ofAlbumFile ((sampleEnv 3 []).AddAlbumFile a
          ((sampleEnv 3 []).toFile (⟨3, "u", [], ⟨5⟩⟩ : PrecreateResp).Data)) ∧
        t = [Call.addAlbumFile a
          ((sampleEnv 3 []).toFile (⟨3, "u", [], ⟨5⟩⟩ : PrecreateResp).Data)]) ∧
      ((∀ a, Obj.album ⟨9⟩ ≠ Obj.album a) →
        r = Ret.ok (Obj.file
          ((sampleEnv 3 []).toFile (⟨3, "u", [], ⟨5⟩⟩ : PrecreateResp).Data)) ∧ t = []) :=
  C4_outcome_three_placement_only (sampleEnv 3 []) (Obj.album ⟨9⟩) sampleStream [Ev.main]
    [7] sampleDigests ⟨3, "u", [], ⟨5⟩⟩ (by decide) rfl sample_digestPass rfl rfl

/-! ### `Copy` and `Move` -/

theorem moveAfterCopy_ok {D : Type} (file : AlbumFile) (o : Option ObjValue)
    (t : List (Call D)) :
    moveAfterCopy file ((⟨o, none⟩ : Ret), t) = (⟨o, none⟩, t ++ [Call.deleteAlbumFile file]) :=
  rfl

theorem moveAfterCopy_fail {D : Type} (file : AlbumFile) (o : Option ObjValue) (e : Err)
    (t : List (Call D)) :
    moveAfterCopy file ((⟨o, some e⟩ : Ret), t) = (Ret.fail e, t) := rfl

theorem copyToAlbum_calls {D : Type} (env : Env D) (a : Album) (f : AlbumFile)
    (x : Except Err File) :
    ∀ g, Call.deleteAlbumFile g ∉ (copyToAlbum env a f x).2 := by
  cases x with
  | error e => exact fun g hg => by simp [copyToAlbum] at hg
  | ok r => exact fun g hg => by simp [copyToAlbum] at hg

/-- The method `Copy` never calls `DeleteAlbumFile`. -/
theorem Copy_calls {D : Type} (env : Env D) (srcObj dstDir : Obj) :
    ∀ f, Call.deleteAlbumFile f ∉ (Copy env srcObj dstDir).2 := by
  have hns : ∀ f, Call.deleteAlbumFile f ∉ ([] : List (Call D)) :=
    fun f hf => absurd hf (List.not_mem_nil _)
  cases srcObj with
  | file f =>
    cases dstDir with
    | album a => exact fun g hg => by simp [Copy] at hg
    | file g => exact hns
    | albumFile g => exact hns
    | root => exact hns
    | object o => exact hns
  | albumFile f =>
    cases dstDir with
    | album a => exact copyToAlbum_calls env a f _
    | root => exact fun g hg => by simp [Copy] at hg
    | file g => exact hns
    | albumFile g => exact hns
    | object o => exact hns
  | album a => cases dstDir <;> exact hns
  | root => cases dstDir <;> exact hns
  | object o => cases dstDir <;> exact hns

/-- For an album file and a destination album or root, `Move` is `Copy` followed by
the removal of the original when `Copy` succeeded. -/
theorem Move_eq {D : Type} (env : Env D) (file : AlbumFile) (dstDir : Obj)
    (hdst : dstDir = Obj.root ∨ ∃ a, dstDir = Obj.album a) :
    Move env (Obj.albumFile file) dstDir =
      moveAfterCopy file (Copy env (Obj.albumFile file) dstDir) := by
  rcases hdst with h | ⟨a, h⟩ <;> subst h <;> rfl

/-- Claim C10, amended in the object returned after a failed `Copy`: for an album
file and a destination album or root, `Move` returns the error `Copy` returns, and
nothing it returns or calls depends on what `DeleteAlbumFile` answers. When `Copy`
succeeds, `Move` returns the pair of `Copy` (its object, a nil error) and the one
further call is the removal of the original album file. When `Copy` fails with `e`,
`Move` returns `(nil, e)`, makes no further call and no removal. For every other
source or destination `Move` returns `errs.NotSupport` without any call. -/
theorem C10_move_copy_then_delete {D : Type} (env : Env D) (srcObj dstDir : Obj) :
    (∀ file, srcObj = Obj.albumFile file →
      (dstDir = Obj.root ∨ ∃ a, dstDir = Obj.album a) →
      (Move env srcObj dstDir).1.err = (Copy env srcObj dstDir).1.err ∧
      (∀ del : AlbumFile → Option Err,
        Move { env with DeleteAlbumFile := del } srcObj dstDir = Move env srcObj dstDir) ∧
      ((Copy env srcObj dstDir).1.err = none →
        (Move env srcObj dstDir).1 = (Copy env srcObj dstDir).1 ∧
        (Move env srcObj dstDir).2 =
          (Copy env srcObj dstDir).2 ++ [Call.deleteAlbumFile file]) ∧
      (∀ e, (Copy env srcObj dstDir).1.err = some e →
        (Move env srcObj dstDir).1 = Ret.fail e ∧
        (Move env srcObj dstDir).2 = (Copy env srcObj dstDir).2 ∧
        Call.deleteAlbumFile file ∉ (Move env srcObj dstDir).2)) ∧
    ((∀ file, srcObj = Obj.albumFile file →
        ¬ (dstDir = Obj.root ∨ ∃ a, dstDir = Obj.album a)) →
      Move env srcObj dstDir = (Ret.fail Err.notSupport, [])) := by
  constructor
  · intro file hsrc hdst
    subst hsrc
    have hcalls := Copy_calls env (Obj.albumFile file) dstDir file
    have hdel : ∀ del : AlbumFile → Option Err,
        Move { env with DeleteAlbumFile := del } (Obj.albumFile file) dstDir =
          Move env (Obj.albumFile file) dstDir := by
      intro del
      rcases hdst with h | ⟨a, h⟩ <;> subst h <;> rfl
    rw [Move_eq env file dstDir hdst] at hdel ⊢
    generalize Copy env (Obj.albumFile file) dstDir = c at hcalls hdel ⊢
    obtain ⟨⟨o, e⟩, t⟩ := c
    cases e with
    | none =>
      rw [moveAfterCopy_ok] at hdel ⊢
      exact ⟨rfl, hdel, fun _ => ⟨rfl, rfl⟩, fun e h => Option.noConfusion h⟩
    | some e =>
      rw [moveAfterCopy_fail] at hdel ⊢
      refine ⟨rfl, hdel, fun h => Option.noConfusion h, fun e' h => ?_⟩
      have he : e = e' := Option.some.inj h
      subst he
      exact ⟨rfl, rfl, hcalls⟩
  · intro h
    cases srcObj with
    | albumFile file =>
      cases dstDir with
      | root => exact absurd (Or.inl rfl) (h file rfl)
      | album a => exact absurd (Or.inr ⟨a, rfl⟩) (h file rfl)
      | file f => rfl
      | albumFile f => rfl
      | object o => rfl
    | file f => cases dstDir <;> rfl
    | album a => cases dstDir <;> rfl
    | root => cases dstDir <;> rfl
    | object o => cases dstDir <;> rfl

/-- Witness of C10: an album file moved into an album under the sample environment:
`CopyAlbumFile`, `AddAlbumFile`, then `DeleteAlbumFile`; and a root file, for which
`Move` is not supported. -/
theorem C10_move_copy_then_delete_witness :
    Move (sampleEnv 1 []) (Obj.albumFile ⟨4, 2⟩) (Obj.album ⟨9⟩) =
      (Ret.ok (Obj.albumFile ⟨4, 9⟩),
        [Call.copyAlbumFile ⟨4, 2⟩, Call.addAlbumFile ⟨9⟩ ⟨4⟩, Call.deleteAlbumFile ⟨4, 2⟩]) ∧
    (Move (sampleEnv 1 []) (Obj.albumFile ⟨4, 2⟩) (Obj.album ⟨9⟩)).1 =
      (Copy (sampleEnv 1 []) (Obj.albumFile ⟨4, 2⟩) (Obj.album ⟨9⟩)).1 ∧
    (Move failingCopyEnv (Obj.albumFile ⟨4, 2⟩) Obj.root).1 =
      Ret.fail (Err.transport 1) ∧
    Move (sampleEnv 1 []) (Obj.file ⟨4⟩) (Obj.album ⟨9⟩) = (Ret.fail Err.notSupport, []) :=
  ⟨rfl,
    (((C10_move_copy_then_delete (sampleEnv 1 []) (Obj.albumFile ⟨4, 2⟩) (Obj.album ⟨9⟩)).1
      ⟨4, 2⟩ rfl (Or.inr ⟨⟨9⟩, rfl⟩)).2.2.1 rfl).1,
    (((C10_move_copy_then_delete failingCopyEnv (Obj.albumFile ⟨4, 2⟩) Obj.root).1
      ⟨4, 2⟩ rfl (Or.inl rfl)).2.2.2 (Err.transport 1) rfl).1,
    (C10_move_copy_then_delete (sampleEnv 1 []) (Obj.file ⟨4⟩) (Obj.album ⟨9⟩)).2
      (fun file h => by cases h)⟩

/-- Counterexample to C10 as stated (`Move` returns exactly the result of `Copy`): an
album file moved to the root with a failing `CopyAlbumFile`. `Copy` returns the
helper's pointer as a non-nil `model.Obj` next to the error; `Move` returns the
literal `nil` next to it. -/
theorem C10_counterexample :
    (Copy failingCopyEnv (Obj.albumFile ⟨4, 2⟩) Obj.root).1 =
      ⟨some ObjValue.failedFile, some (Err.transport 1)⟩ ∧
    (Move failingCopyEnv (Obj.albumFile ⟨4, 2⟩) Obj.root).1 =
      ⟨none, some (Err.transport 1)⟩ ∧
    (Move failingCopyEnv (Obj.albumFile ⟨4, 2⟩) Obj.root).1 ≠
      (Copy failingCopyEnv (Obj.albumFile ⟨4, 2⟩) Obj.root).1 := by
  decide

/-! ### Block uploader: concrete runs -/

theorem afterUpload_returned {D : Type} (env : Env D) (dstDir : Obj) (params : Params D)
    (resp : PrecreateResp) (s : UpState D) (r : Ret) (h : s.pc = Pc.returned r) :
    afterUpload env dstDir params resp s = some (r, s.trace) := by
  rw [afterUpload, h]

theorem afterUpload_uploaded {D : Type} (env : Env D) (dstDir : Obj) (params : Params D)
    (resp : PrecreateResp) (s : UpState D) (h : s.pc = Pc.uploaded) :
    afterUpload env dstDir params resp s =
      some ((finalize env dstDir params resp).1,
        s.trace ++ (finalize env dstDir params resp).2) := by
  rw [afterUpload, h]
  rfl

/-- A run of `Put` whose precreate answers outcome 1 is the upload phase on the block
list of the answer, followed by what case 1 ends with. -/
theorem Put_upload {D : Type} (env : Env D) (dstDir : Obj) (stream : Stream)
    (sched : List Ev) (tempFile : List Byte) (d : Digests D) (resp : PrecreateResp)
    (hsize : stream.size ≠ 0)
    (htemp : env.CreateTempFile stream = .ok tempFile)
    (hdig : digestPass env.hexMD5 env.ctxErrAt tempFile stream.size = .ok d)
    (hneg : env.precreate (mkParams stream d) = .ok resp)
    (h1 : resp.ReturnType = 1) :
    Put env dstDir stream sched =
      Outcome.after [Call.createTempFile stream, Call.precreate (mkParams stream d)]
        (afterUpload env dstDir (mkParams stream d) resp
          (run ⟨count stream.size, lastBlockSize stream.size, "/" ++ stream.name, resp⟩
            (UpState.init D
              ⟨count stream.size, lastBlockSize stream.size, "/" ++ stream.name, resp⟩)
            sched)) := by
  rw [Put_negotiated env dstDir stream sched tempFile d resp hsize htemp hdig hneg,
    dispatch, if_pos h1]
  rfl

theorem count_10MiB : count stream10MiB.size = 3 := by
  rw [count_eq_ceilQuot (by decide)]
  decide

theorem cfg_10MiB (blocks : List Int) :
    (⟨count stream10MiB.size, lastBlockSize stream10MiB.size, "/" ++ stream10MiB.name,
      ⟨1, "u", blocks, ⟨5⟩⟩⟩ : UploadCfg) = cfg10MiB blocks := by
  rw [count_10MiB]
  rfl

/-- The run of `Put` on the 10 MiB stream, up to the end of the upload phase. -/
theorem Put_10MiB (blocks : List Int) (dstDir : Obj) (sched : List Ev) :
    ∃ d, Put (env10MiB blocks) dstDir stream10MiB sched =
      Outcome.after [Call.createTempFile stream10MiB, Call.precreate (mkParams stream10MiB d)]
        (afterUpload (env10MiB blocks) dstDir (mkParams stream10MiB d) ⟨1, "u", blocks, ⟨5⟩⟩
          (run (cfg10MiB blocks) (UpState.init (List Byte) (cfg10MiB blocks)) sched)) := by
  obtain ⟨d, hd, _⟩ := digestPass_length (env10MiB blocks).hexMD5 (env10MiB blocks).ctxErrAt
    (fun _ => rfl) (List.replicate 10485760 0) stream10MiB.size
  refine ⟨d, ?_⟩
  rw [Put_upload (env10MiB blocks) dstDir stream10MiB sched (List.replicate 10485760 0) d
    ⟨1, "u", blocks, ⟨5⟩⟩ (by decide) rfl hd rfl rfl, cfg_10MiB]

/-- Claim C2 fails on the code: `Put` on a 10 MiB stream, precreate answering outcome 1
with block list `[0, 1, 2]`. When the transfer of block 0 (or of block 1) fails before
the loop reaches the next block, the loop returns `(nil, ctx.Err())` with the caller's
context not cancelled: `Put` returns a nil object and a nil error, not the cause of
the failure. When the failing transfer is that of the last block, the path after the
wait loop returns the cause. -/
theorem C2_failure_before_next_block_returns_nil :
    (∃ t, Put (env10MiB [0, 1, 2]) Obj.root stream10MiB
        [Ev.main, Ev.main, Ev.finish 0 (some (Err.transport 1)), Ev.main] =
      some (⟨none, none⟩, t)) ∧
    (∃ t, Put (env10MiB [0, 1, 2]) Obj.root stream10MiB
        [Ev.main, Ev.main, Ev.main, Ev.main, Ev.finish 1 (some (Err.transport 1)), Ev.main] =
      some (⟨none, none⟩, t)) ∧
    (∃ t, Put (env10MiB [0, 1, 2]) Obj.root stream10MiB
        [Ev.main, Ev.main, Ev.main, Ev.main, Ev.main, Ev.main,
          Ev.finish 2 (some (Err.transport 1)), Ev.finish 0 none, Ev.finish 0 none,
          Ev.main, Ev.main, Ev.main, Ev.main, Ev.main] =
      some (⟨none, some (Err.transport 1)⟩, t)) := by
  refine ⟨?_, ?_, ?_⟩
  · obtain ⟨d, hd⟩ := Put_10MiB [0, 1, 2] Obj.root
      [Ev.main, Ev.main, Ev.finish 0 (some (Err.transport 1)), Ev.main]
    rw [hd, afterUpload_returned _ _ _ _ _ ⟨none, none⟩ (by decide)]
    exact ⟨_, rfl⟩
  · obtain ⟨d, hd⟩ := Put_10MiB [0, 1, 2] Obj.root
      [Ev.main, Ev.main, Ev.main, Ev.main, Ev.finish 1 (some (Err.transport 1)), Ev.main]
    rw [hd, afterUpload_returned _ _ _ _ _ ⟨none, none⟩ (by decide)]
    exact ⟨_, rfl⟩
  · obtain ⟨d, hd⟩ := Put_10MiB [0, 1, 2] Obj.root
      [Ev.main, Ev.main, Ev.main, Ev.main, Ev.main, Ev.main,
        Ev.finish 2 (some (Err.transport 1)), Ev.finish 0 none, Ev.finish 0 none,
        Ev.main, Ev.main, Ev.main, Ev.main, Ev.main]
    rw [hd, afterUpload_returned _ _ _ _ _ ⟨none, some (Err.transport 1)⟩ (by decide)]
    exact ⟨_, rfl⟩

theorem uploadsOf_append {D : Type} (t u : List (Call D)) :
    uploadsOf (t ++ u) = uploadsOf t ++ uploadsOf u := by
  induction t with
  | nil => rfl
  | cons c t ih => cases c <;> simp [uploadsOf, ih]

/-- Claim C3 fails on the code: `Put` on a 10 MiB stream (3 blocks, the last of 2 MiB),
precreate answering outcome 1 with the block list `[2, 0, 1]`, every transfer
succeeding. `byteSize` is set to `lastBlockSize` for sequence number 2 and never set
back: blocks 0 and 1 are sent with their own offsets but with 2 MiB each, where the
plan has 4 MiB for them. -/
theorem C3_block_after_last_gets_last_size :
    byteSizeAt stream10MiB.size (0 + 1) = 4194304 ∧
    byteSizeAt stream10MiB.size (1 + 1) = 4194304 ∧
    ∃ t, Put (env10MiB [2, 0, 1]) Obj.root stream10MiB
        [Ev.main, Ev.main, Ev.main, Ev.main, Ev.main, Ev.main,
          Ev.finish 0 none, Ev.finish 0 none, Ev.finish 0 none,
          Ev.main, Ev.main, Ev.main, Ev.main, Ev.main] =
        some (Ret.ok (Obj.file ⟨5⟩), t) ∧
      uploadsOf t = [⟨2, 8388608, 2097152⟩, ⟨0, 0, 2097152⟩, ⟨1, 4194304, 2097152⟩] := by
  refine ⟨?_, ?_, ?_⟩
  · rw [byteSizeAt_of_lt (by rw [count_10MiB]; decide), DEFAULT_eq]
  · rw [byteSizeAt_of_lt (by rw [count_10MiB]; decide), DEFAULT_eq]
  · obtain ⟨d, hd⟩ := Put_10MiB [2, 0, 1] Obj.root
      [Ev.main, Ev.main, Ev.main, Ev.main, Ev.main, Ev.main,
        Ev.finish 0 none, Ev.finish 0 none, Ev.finish 0 none,
        Ev.main, Ev.main, Ev.main, Ev.main, Ev.main]
    rw [hd, afterUpload_uploaded _ _ _ _ _ (by decide)]
    refine ⟨_, rfl, ?_⟩
    rw [uploadsOf_append, uploadsOf_append]
    have h1 : uploadsOf (run (cfg10MiB [2, 0, 1])
        (UpState.init (List Byte) (cfg10MiB [2, 0, 1]))
        [Ev.main, Ev.main, Ev.main, Ev.main, Ev.main, Ev.main,
          Ev.finish 0 none, Ev.finish 0 none, Ev.finish 0 none,
          Ev.main, Ev.main, Ev.main, Ev.main, Ev.main]).trace =
        [⟨2, 8388608, 2097152⟩, ⟨0, 0, 2097152⟩, ⟨1, 4194304, 2097152⟩] := by decide
    rw [h1]
    rfl

/-! ### Block uploader: what every run keeps -/

theorem run_nil {D : Type} (cfg : UploadCfg) (s : UpState D) : run cfg s [] = s := rfl

/-- A property of the state that every step keeps holds after every schedule. -/
theorem run_keeps {D : Type} (cfg : UploadCfg) (P : UpState D → Prop)
    (hstep : ∀ s e, P s → P (step cfg s e)) (sched : List Ev) :
    ∀ s, P s → P (run cfg s sched) := by
  induction sched with
  | nil => exact fun s h => h
  | cons e es ih => exact fun s h => ih _ (hstep s e h)

theorem firstCause_isSome (o : Option Err) (e : Err) : (firstCause o e).isSome = true := by
  cases o <;> rfl

theorem firstCause_some (c e : Err) : firstCause (some c) e = some c := rfl

/-- The fields a step of the coordinating goroutine leaves alone, and what it adds to
the trace: nothing, or one block transfer. -/
theorem mainStep_frame {D : Type} (cfg : UploadCfg) (s : UpState D) :
    (mainStep cfg s).ctx = s.ctx ∧ (mainStep cfg s).upCtx = s.upCtx ∧
    (mainStep cfg s).progress = s.progress ∧
    ((mainStep cfg s).trace = s.trace ∨
      ∃ p off b, (mainStep cfg s).trace = s.trace ++ [Call.upload cfg.path p cfg.resp.UploadID off b]) := by
  unfold mainStep
  split
  · split
    · exact ⟨rfl, rfl, rfl, Or.inl rfl⟩
    · split <;> exact ⟨rfl, rfl, rfl, Or.inl rfl⟩
  · split
    · exact ⟨rfl, rfl, rfl, Or.inr ⟨_, _, _, rfl⟩⟩
    · exact ⟨rfl, rfl, rfl, Or.inl rfl⟩
  · split
    · split <;> exact ⟨rfl, rfl, rfl, Or.inl rfl⟩
    · split <;> exact ⟨rfl, rfl, rfl, Or.inl rfl⟩
  · exact ⟨rfl, rfl, rfl, Or.inl rfl⟩
  · exact ⟨rfl, rfl, rfl, Or.inl rfl⟩

/-- The fields the end of a goroutine leaves alone, and what it adds to the trace:
nothing, or one progress callback. -/
theorem finishStep_frame {D : Type} (cfg : UploadCfg) (j : Nat) (err : Option Err)
    (s : UpState D) :
    (finishStep cfg j err s).pc = s.pc ∧ (finishStep cfg j err s).todo = s.todo ∧
    (finishStep cfg j err s).ctx = s.ctx ∧
    (s.upCtx.isSome = true → (finishStep cfg j err s).upCtx = s.upCtx) ∧
    ((finishStep cfg j err s).trace = s.trace ∨
      ∃ v, (finishStep cfg j err s).trace = s.trace ++ [Call.progress v]) := by
  unfold finishStep
  split
  · split
    · refine ⟨rfl, rfl, rfl, fun h => ?_, Or.inl rfl⟩
      cases hu : s.upCtx with
      | none => rw [hu] at h; cases h
      | some c => rfl
    · refine ⟨rfl, rfl, rfl, fun _ => rfl, ?_⟩
      split
      · exact Or.inr ⟨_, rfl⟩
      · exact Or.inl rfl
  · exact ⟨rfl, rfl, rfl, fun _ => rfl, Or.inl rfl⟩

/-- Once cancelled, the caller's context keeps its error, and `upCtx` is cancelled
whenever the caller's context is. -/
theorem step_ctx {D : Type} (cfg : UploadCfg) (s : UpState D) (ev : Ev) :
    (∀ e, s.ctx = some e → (step cfg s ev).ctx = some e) ∧
    ((s.ctx.isSome = true → s.upCtx.isSome = true) →
      ((step cfg s ev).ctx.isSome = true → (step cfg s ev).upCtx.isSome = true)) := by
  cases ev with
  | main =>
    obtain ⟨h1, h2, _, _⟩ := mainStep_frame cfg s
    refine ⟨fun e he => ?_, fun h => ?_⟩
    · show (mainStep cfg s).ctx = some e
      rw [h1, he]
    · show (mainStep cfg s).ctx.isSome = true → (mainStep cfg s).upCtx.isSome = true
      rw [h1, h2]
      exact h
  | finish j err =>
    obtain ⟨_, _, h3, h4, _⟩ := finishStep_frame cfg j err s
    refine ⟨fun e he => ?_, fun h => ?_⟩
    · show (finishStep cfg j err s).ctx = some e
      rw [h3, he]
    · show (finishStep cfg j err s).ctx.isSome = true →
        (finishStep cfg j err s).upCtx.isSome = true
      rw [h3]
      intro hc
      rw [h4 (h hc)]
      exact h hc
  | cancel err cause =>
    refine ⟨fun e he => ?_, fun _ _ => firstCause_isSome _ _⟩
    show firstCause s.ctx err = some e
    rw [he]
    rfl

theorem run_ctx {D : Type} (cfg : UploadCfg) (sched : List Ev) (s : UpState D) (e : Err)
    (h : s.ctx = some e) : (run cfg s sched).ctx = some e :=
  run_keeps cfg (fun s => s.ctx = some e) (fun s ev hs => (step_ctx cfg s ev).1 e hs) sched s h

theorem wrapInt32_of_lt (m : Nat) (h : m < 2 ^ 31) : wrapInt32 (m : Int) = (m : Int) := by
  unfold wrapInt32
  omega

end BaiduPhoto
